import Mathlib

/-!
Shallow embedding of the finance_copilot forecasting and allocation engine
(`apps/api/src/forecasting.ts`, `pretrainedModel.ts`, and the `/forecast`
route), with theorems checking the natural-language specification against it.

Conventions of the embedding:
* Monetary amounts are rationals (`ℚ`), modelling JS numbers with exact
  arithmetic; every division in the source is guarded, so no non-finite
  value arises.
* A `monthKey` string `"YYYY-MM-01"` is encoded as the natural number
  `Y*100 + M` (e.g. `"2024-01-01" ↦ 202401`).  For well-formed keys the
  string order used by `localeCompare` / `Array.prototype.sort` coincides
  with the numeric order of this code, since the format is fixed width.
* JS `Array.prototype.sort` is stable (ES2019); it is modelled by a stable
  insertion sort `sortByKey`.
* A JS `Map` built by insertion groups keys in first-occurrence order; this
  is modelled by `dedupFirst` plus `List.filter`.
-/

namespace FinCopilot

/-- Stable insertion of `x` into `s`: `x` is placed before the first element
whose key is strictly greater, hence after all elements with an equal key. -/
def insertByKey {α : Type} (k : α → Nat) (x : α) : List α → List α
  | [] => [x]
  | y :: ys => if k x < k y then x :: y :: ys else y :: insertByKey k x ys

/-- Stable sort by a `Nat` key, processing elements left to right; models the
(stable) JS `Array.prototype.sort` with a numeric/lexicographic comparator. -/
def sortByKey {α : Type} (k : α → Nat) (l : List α) : List α :=
  l.foldl (fun acc x => insertByKey k x acc) []

/-- Elements of `l` not in `seen`, keeping the first occurrence of each. -/
def dedupFirstAux {α : Type} [DecidableEq α] (seen : List α) : List α → List α
  | [] => []
  | x :: xs =>
    if x ∈ seen then dedupFirstAux seen xs else x :: dedupFirstAux (x :: seen) xs

/-- First-occurrence deduplication; models `Array.from(new Set(xs))` and the
key order of a JS `Map` populated by insertion. -/
def dedupFirst {α : Type} [DecidableEq α] (l : List α) : List α :=
  dedupFirstAux [] l

/-- Models JS `String.prototype.toLowerCase`, adequate for ASCII names. -/
def jsToLowerCase (s : String) : String :=
  String.mk (s.data.map Char.toLower)

/-- Does `pat` occur as a contiguous substring of `s` (as char lists)? -/
def hasSubstrChars (pat : List Char) : List Char → Bool
  | [] => pat.isEmpty
  | c :: rest => ((c :: rest).take pat.length == pat) || hasSubstrChars pat rest

/-- Models JS `String.prototype.includes`. -/
def jsIncludes (s pat : String) : Bool :=
  hasSubstrChars pat.data s.data

/-- Encoded month key `Y*100 + M` for the string `"YYYY-MM-01"`. -/
abbrev MonthKey := Nat

/-- One row of the monthly aggregate table (`MonthlyCategoryTotal`). -/
structure MonthlyCategoryTotal where
  monthKey : MonthKey
  category : String
  totalAmount : ℚ
deriving DecidableEq, Repr

/-- One point of a per-category series (`CategorySeriesPoint`). -/
structure CategorySeriesPoint where
  monthKey : MonthKey
  index : Nat
  amount : ℚ
deriving DecidableEq, Repr

/-- A per-category chronological series (`CategorySeries`). -/
structure CategorySeries where
  category : String
  months : List CategorySeriesPoint
deriving DecidableEq, Repr

/-- One per-category prediction entry of a `ForecastResult`. -/
structure CatPred where
  category : String
  predicted : ℚ
deriving DecidableEq, Repr

/-- The result of the forecast step (`ForecastResult`). -/
structure ForecastResult where
  nextMonthKey : MonthKey
  perCategory : List CatPred
  totalPredicted : ℚ
deriving DecidableEq, Repr

/-- A per-category lag model of the pretrained artifact
(`PretrainedCategoryModel`). -/
structure PretrainedCategoryModel where
  intercept : ℚ
  lags : List ℚ
deriving DecidableEq, Repr

/-- The pretrained artifact (`PretrainedArtifact`); `categories` models the
JS record as an association list, `defaultModel` the optional `default`. -/
structure PretrainedArtifact where
  version : String
  trainedAt : String
  categories : List (String × PretrainedCategoryModel)
  defaultModel : Option PretrainedCategoryModel
deriving DecidableEq, Repr

/-- One per-category entry of a `SafeToSpend`. -/
structure SafeCat where
  category : String
  safeBudget : Option ℚ
  predicted : ℚ
deriving DecidableEq, Repr

/-- The result of the budgeting step (`SafeToSpend`). -/
structure SafeToSpend where
  targetSavingsRate : ℚ
  avgMonthlyIncome : Option ℚ
  safeTotalBudget : Option ℚ
  perCategory : List SafeCat
deriving DecidableEq, Repr

/-- One month of reshaped history (`HistoryPoint`). -/
structure HistoryPoint where
  monthKey : MonthKey
  perCategory : List (String × ℚ)
  totalActual : ℚ
deriving DecidableEq, Repr

/-- The canonical category list `CANONICAL_CATEGORIES`. -/
def CANONICAL_CATEGORIES : List String :=
  ["Dining", "Groceries", "Subscriptions", "Transport", "Uncategorized",
   "Other", "Income"]

/-- The constant `TARGET_SAVINGS_RATE = 0.2`. -/
def TARGET_SAVINGS_RATE : ℚ := 1/5

/-- The constant `AVG_INCOME_MONTHS = 3`. -/
def AVG_INCOME_MONTHS : Nat := 3

/-- Advance an encoded month key by one calendar month; models
`formatNextMonthKey` (the JS `Date` arithmetic rolls December over to
January of the next year, as encoded here). -/
def formatNextMonthKey (k : MonthKey) : MonthKey :=
  if k % 100 == 12 then (k / 100 + 1) * 100 + 1 else k + 1

/-- Embeds `buildCategorySeries`: sort rows chronologically, index the
distinct months globally, group per category (JS `Map` insertion order),
and emit one series per category in the canonical-∪-observed set. -/
def buildCategorySeries (rows : List MonthlyCategoryTotal) : List CategorySeries :=
  let sorted := sortByKey (fun r => r.monthKey) rows
  let uniqueMonths := dedupFirst (sorted.map (fun r => r.monthKey))
  let monthIndex : MonthKey → Nat := fun m => uniqueMonths.indexOf m
  let observedCats := dedupFirst (sorted.map (fun r => r.category))
  let categories := dedupFirst (CANONICAL_CATEGORIES ++ observedCats)
  categories.map (fun c =>
    let pts := (sorted.filter (fun r => r.category == c)).map (fun r =>
      { monthKey := r.monthKey, index := monthIndex r.monthKey,
        amount := r.totalAmount })
    { category := c, months := sortByKey (fun p => p.index) pts })

/-- One step of the Holt level/trend update (body of the loop in
`holtLinearPredict`). -/
def holtStep (alpha beta : ℚ) (lt : ℚ × ℚ) (y : ℚ) : ℚ × ℚ :=
  let newLevel := alpha * y + (1 - alpha) * (lt.1 + lt.2)
  let newTrend := beta * (newLevel - lt.1) + (1 - beta) * lt.2
  (newLevel, newTrend)

/-- Embeds `holtLinearPredict` (defaults `alpha = 0.6`, `beta = 0.3` are
passed explicitly by callers).  Note the source computes
`nextT = lastIndex + 1` and returns `level + trend * (nextT - lastIndex)`. -/
def holtLinearPredict (series : List CategorySeriesPoint) (alpha beta : ℚ) : ℚ :=
  match series with
  | [] => 0
  | [p] => p.amount
  | p0 :: p1 :: rest =>
    let lt := ((p1 :: rest).map (fun p => p.amount)).foldl (holtStep alpha beta)
      (p0.amount, p1.amount - p0.amount)
    let lastIdx := ((p0 :: p1 :: rest).getLastD p0).index
    let nextT := lastIdx + 1
    lt.1 + lt.2 * ((nextT : ℚ) - (lastIdx : ℚ))

/-- Model lookup `artifact.categories[cat] || artifact.default` (a present
model object is always truthy in JS). -/
def lookupModel (art : PretrainedArtifact) (cat : String) :
    Option PretrainedCategoryModel :=
  match art.categories.lookup cat with
  | some m => some m
  | none => art.defaultModel

/-- Lag feature `sorted[n - 1 - i]?.amount ?? sorted[0].amount`.  For `i`
beyond the history the JS index is negative, yielding `undefined` and the
pad-with-oldest fallback; truncated `Nat` subtraction lands on index `0`,
the same value, so this is faithful for nonempty `sorted`. -/
def lagFeature (sorted : List CategorySeriesPoint) (i : Nat) : ℚ :=
  match sorted.get? (sorted.length - 1 - i) with
  | some p => p.amount
  | none => ((sorted.headD { monthKey := 0, index := 0, amount := 0 }).amount)

/-- Embeds `predictWithPretrained`: `none` without an artifact; otherwise one
prediction per non-Income series that has a specific or default model
(other categories are skipped), empty series predicting `0`. -/
def predictWithPretrained (series : List CategorySeries)
    (artifact : Option PretrainedArtifact) : Option (List CatPred) :=
  match artifact with
  | none => none
  | some art => some <| series.filterMap (fun cs =>
      if jsToLowerCase cs.category == "income" then none
      else
        match lookupModel art cs.category with
        | none => none
        | some model =>
          let sorted := sortByKey (fun p => p.index) cs.months
          if sorted.length == 0 then
            some { category := cs.category, predicted := 0 }
          else
            let pred := model.lags.enum.foldl
              (fun acc ic => acc + ic.2 * lagFeature sorted ic.1) model.intercept
            some { category := cs.category, predicted := pred })

/-- The Holt fallback branch of `forecastPerCategory`: every non-Income
series, smoothed with the default constants. -/
def holtBranch (series : List CategorySeries) : List CatPred :=
  (series.filter (fun s => jsToLowerCase s.category != "income")).map (fun s =>
    { category := s.category, predicted := holtLinearPredict s.months (3/5) (3/10) })

/-- Embeds `forecastPerCategory`: next month key from the maximal observed
month, pretrained predictions used verbatim when present and non-empty,
else the Holt fallback; `totalPredicted` sums the clamped predictions. -/
def forecastPerCategory (series : List CategorySeries)
    (artifact : Option PretrainedArtifact) : ForecastResult :=
  let allMonths := (series.map (fun s => s.months.map (fun m => m.monthKey))).flatten
  let lastMonthKey := (sortByKey id allMonths).getLastD 0
  let nextMonthKey := formatNextMonthKey lastMonthKey
  let perCategory :=
    match predictWithPretrained series artifact with
    | some ps => if ps.isEmpty then holtBranch series else ps
    | none => holtBranch series
  let totalPredicted := (perCategory.map (fun c => max 0 c.predicted)).sum
  { nextMonthKey := nextMonthKey, perCategory := perCategory,
    totalPredicted := totalPredicted }

/-- Locate the income series: exact case-insensitive match "income", else
substring match (first lines of `computeSafeToSpend`). -/
def findIncomeSeries (series : List CategorySeries) : Option CategorySeries :=
  match series.find? (fun s => jsToLowerCase s.category == "income") with
  | some s => some s
  | none => series.find? (fun s => jsIncludes (jsToLowerCase s.category) "income")

/-- The trailing (up to `AVG_INCOME_MONTHS`) observed income months
(`incomeMonths.slice(-AVG_INCOME_MONTHS)`). -/
def trailingIncomeMonths (series : List CategorySeries) : List CategorySeriesPoint :=
  let incomeMonths := ((findIncomeSeries series).map (fun s => s.months)).getD []
  incomeMonths.drop (incomeMonths.length - AVG_INCOME_MONTHS)

/-- Mean of the absolute amounts of a list of points. -/
def meanAbsAmount (pts : List CategorySeriesPoint) : ℚ :=
  ((pts.map (fun m => |m.amount|)).sum) / (pts.length : ℚ)

/-- The allocation ratio of one forecast entry (body of the `map` in
`computeSafeToSpend`): proportional share of the clamped prediction, or
the equal share `1/numCategories` when the clamped sum is zero (with the
`|| 1` guard on the category count). -/
def allocShare (forecast : ForecastResult) (pc : CatPred) : ℚ :=
  let sumPredicted := (forecast.perCategory.map (fun q => max 0 q.predicted)).sum
  let numCategories : ℚ :=
    if forecast.perCategory.length == 0 then 1
    else (forecast.perCategory.length : ℚ)
  if sumPredicted > 0 then max 0 pc.predicted / sumPredicted
  else 1 / numCategories

/-- Embeds `computeSafeToSpend`.  The income series is located by exact
case-insensitive match, then by substring match; the guard
`!avgMonthlyIncome || !isFinite(avgMonthlyIncome)` is falsy both for the JS
`null` and for the number `0`, and no non-finite value arises over `ℚ`. -/
def computeSafeToSpend (forecast : ForecastResult)
    (series : List CategorySeries) : SafeToSpend :=
  let lastIncome := trailingIncomeMonths series
  let avgMonthlyIncome : Option ℚ :=
    if lastIncome.length > 0 then some (meanAbsAmount lastIncome)
    else none
  let nullCase : SafeToSpend :=
    { targetSavingsRate := TARGET_SAVINGS_RATE
      avgMonthlyIncome := none
      safeTotalBudget := none
      perCategory := forecast.perCategory.map (fun pc =>
        { category := pc.category, predicted := pc.predicted, safeBudget := none }) }
  match avgMonthlyIncome with
  | none => nullCase
  | some avg =>
    if avg == 0 then nullCase
    else
      { targetSavingsRate := TARGET_SAVINGS_RATE
        avgMonthlyIncome := some avg
        safeTotalBudget := some (avg * (1 - TARGET_SAVINGS_RATE))
        perCategory := forecast.perCategory.map (fun pc =>
          { category := pc.category, predicted := pc.predicted,
            safeBudget := some (avg * (1 - TARGET_SAVINGS_RATE) *
              allocShare forecast pc) }) }

/-- Embeds `buildHistory`: group rows by month (JS `Map` insertion order),
sort months ascending, keep every category's actual unmodified, and sum the
clamped non-Income actuals. -/
def buildHistory (rows : List MonthlyCategoryTotal) : List HistoryPoint :=
  let keys := dedupFirst (rows.map (fun r => r.monthKey))
  let entries := keys.map (fun k => (k, rows.filter (fun r => r.monthKey == k)))
  (sortByKey (fun e => e.1) entries).map (fun e =>
    { monthKey := e.1
      perCategory := e.2.map (fun v => (v.category, v.totalAmount))
      totalActual :=
        ((e.2.filter (fun v => jsToLowerCase v.category != "income")).map
          (fun v => max 0 v.totalAmount)).sum })

/-- Embeds `fallbackForecast` (naive persistence): per observed non-Income
category, the amount of its chronologically last row. -/
def fallbackForecast (rows : List MonthlyCategoryTotal) : ForecastResult :=
  let cats := dedupFirst (rows.map (fun r => r.category))
  let latestMonth := (sortByKey id (rows.map (fun r => r.monthKey))).getLastD 0
  let nextMonthKey := formatNextMonthKey latestMonth
  let perCategory := (cats.filter (fun c => jsToLowerCase c != "income")).map
    (fun c =>
      let vals := rows.filter (fun r => r.category == c)
      let lastRow := (sortByKey (fun r => r.monthKey) vals).getLast?
      { category := c, predicted := ((lastRow.map (fun r => r.totalAmount)).getD 0) })
  let totalPredicted := (perCategory.map (fun p => max 0 p.predicted)).sum
  { nextMonthKey := nextMonthKey, perCategory := perCategory,
    totalPredicted := totalPredicted }

/-- Embeds the `/forecast` route selection: with at least 2 distinct months
run `forecastPerCategory` over the built series, else naive persistence. -/
def forecastRoute (totals : List MonthlyCategoryTotal)
    (artifact : Option PretrainedArtifact) : ForecastResult :=
  let series := buildCategorySeries totals
  let uniqueMonths := dedupFirst (totals.map (fun t => t.monthKey))
  if uniqueMonths.length ≥ 2 then forecastPerCategory series artifact
  else fallbackForecast totals

/-! ### Spec-side definitions

These follow the wording of the specification and are compared with the
embedded source functions in the theorems below. -/

/-- Specification recurrence of the Holt smoother (§4.3): starting from a
level and a trend, iterate `level ← α·y + (1−α)·(level+trend)` and
`trend ← β·(level−previousLevel) + (1−β)·trend` over the given amounts. -/
def holtSpecLT (alpha beta level trend : ℚ) : List ℚ → ℚ × ℚ
  | [] => (level, trend)
  | y :: ys =>
    let level2 := alpha * y + (1 - alpha) * (level + trend)
    let trend2 := beta * (level2 - level) + (1 - beta) * trend
    holtSpecLT alpha beta level2 trend2 ys

/-- The "most recently observed amount" of a category (spec §4.4 naive
persistence): fold over the rows of that category, a later row winning
unless its month key is strictly smaller; `0` if the category never
occurs. -/
def lastPick {α : Type} (k : α → Nat) (acc : Option α) (x : α) : Option α :=
  match acc with
  | none => some x
  | some a => if k x < k a then some a else some x

/-- Most recently observed amount of `cat` among `rows` (ties on the month
key resolved towards the later row, matching a stable ascending sort). -/
def mostRecentAmount (rows : List MonthlyCategoryTotal) (cat : String) : ℚ :=
  (((rows.filter (fun r => r.category == cat)).foldl
      (lastPick (fun r => r.monthKey)) none).map (fun r => r.totalAmount)).getD 0

/-- Zero-based rank of month `m` among all distinct months of the dataset:
the number of distinct observed month keys strictly below `m` (spec §3,
global index numbering). -/
def monthRank (rows : List MonthlyCategoryTotal) (m : MonthKey) : Nat :=
  (((rows.map (fun r => r.monthKey)).dedup).filter (fun x => x < m)).length

/-! ### Infrastructure lemmas about the sorting and grouping helpers -/

theorem insertByKey_ne_nil {α : Type} (k : α → Nat) (x : α) (l : List α) :
    insertByKey k x l ≠ [] := by
  cases l with
  | nil => simp [insertByKey]
  | cons y ys =>
    simp only [insertByKey]
    split <;> simp

theorem getLast?_cons_ne {α : Type} (y : α) {l : List α} (h : l ≠ []) :
    (y :: l).getLast? = l.getLast? := by
  cases l with
  | nil => exact absurd rfl h
  | cons z zs => exact List.getLast?_cons_cons

theorem insertByKey_perm {α : Type} (k : α → Nat) (x : α) (l : List α) :
    List.Perm (insertByKey k x l) (x :: l) := by
  induction l with
  | nil => exact List.Perm.refl _
  | cons y ys ih =>
    simp only [insertByKey]
    split
    · exact List.Perm.refl _
    · exact (List.Perm.cons y ih).trans (List.Perm.swap x y ys)

theorem insertByKey_pairwise {α : Type} (k : α → Nat) (x : α) {l : List α}
    (hl : l.Pairwise (fun a b => k a ≤ k b)) :
    (insertByKey k x l).Pairwise (fun a b => k a ≤ k b) := by
  induction l with
  | nil => simp [insertByKey]
  | cons y ys ih =>
    rcases List.pairwise_cons.mp hl with ⟨hy, hys⟩
    simp only [insertByKey]
    split
    · rename_i hlt
      refine List.pairwise_cons.mpr ⟨?_, hl⟩
      intro b hb
      rcases List.mem_cons.mp hb with rfl | hb
      · exact Nat.le_of_lt hlt
      · exact Nat.le_trans (Nat.le_of_lt hlt) (hy b hb)
    · rename_i hge
      refine List.pairwise_cons.mpr ⟨?_, ih hys⟩
      intro b hb
      rcases List.mem_cons.mp ((insertByKey_perm k x ys).mem_iff.mp hb) with rfl | hb2
      · exact Nat.le_of_not_lt hge
      · exact hy b hb2

theorem insertByKey_getLast? {α : Type} (k : α → Nat) (x : α) {l : List α}
    (hl : l.Pairwise (fun a b => k a ≤ k b)) :
    (insertByKey k x l).getLast? = lastPick k l.getLast? x := by
  induction l with
  | nil => rfl
  | cons y ys ih =>
    rcases List.pairwise_cons.mp hl with ⟨hy, hys⟩
    simp only [insertByKey]
    split
    · rename_i hlt
      cases ys with
      | nil => simp [lastPick, hlt]
      | cons z zs =>
        cases hw : (z :: zs).getLast? with
        | none => exact absurd (List.getLast?_eq_none_iff.mp hw) (by simp)
        | some w =>
          have hwmem : w ∈ z :: zs := List.mem_of_getLast?_eq_some hw
          have hxw : k x < k w := Nat.lt_of_lt_of_le hlt (hy w hwmem)
          rw [List.getLast?_cons_cons, List.getLast?_cons_cons, hw]
          simp [lastPick, hxw]
    · rename_i hge
      cases ys with
      | nil =>
        simp [insertByKey, lastPick, hge]
      | cons z zs =>
        have hne := insertByKey_ne_nil k x (z :: zs)
        rw [getLast?_cons_ne y hne, ih hys, List.getLast?_cons_cons]

theorem foldl_insertByKey_pairwise {α : Type} (k : α → Nat) (l : List α) :
    ∀ acc : List α, acc.Pairwise (fun a b => k a ≤ k b) →
      (l.foldl (fun acc x => insertByKey k x acc) acc).Pairwise
        (fun a b => k a ≤ k b) := by
  induction l with
  | nil => intro acc h; simpa using h
  | cons x xs ih =>
    intro acc h
    exact ih (insertByKey k x acc) (insertByKey_pairwise k x h)

theorem sortByKey_pairwise {α : Type} (k : α → Nat) (l : List α) :
    (sortByKey k l).Pairwise (fun a b => k a ≤ k b) :=
  foldl_insertByKey_pairwise k l [] (by simp)

theorem foldl_insertByKey_perm {α : Type} (k : α → Nat) (l : List α) :
    ∀ acc : List α,
      List.Perm (l.foldl (fun s r => insertByKey k r s) acc) (acc ++ l) := by
  induction l with
  | nil => intro acc; simp
  | cons x xs ih =>
    intro acc
    have h1 : List.Perm (xs.foldl (fun s r => insertByKey k r s) (insertByKey k x acc))
        (insertByKey k x acc ++ xs) := ih _
    have h2 : List.Perm (insertByKey k x acc ++ xs) ((x :: acc) ++ xs) :=
      (insertByKey_perm k x acc).append_right xs
    exact (h1.trans h2).trans List.perm_middle.symm

theorem sortByKey_perm {α : Type} (k : α → Nat) (l : List α) :
    List.Perm (sortByKey k l) l := by
  simpa using foldl_insertByKey_perm k l []

theorem foldl_insertByKey_getLast? {α : Type} (k : α → Nat) (l : List α) :
    ∀ acc : List α, acc.Pairwise (fun a b => k a ≤ k b) →
      (l.foldl (fun s r => insertByKey k r s) acc).getLast? =
        l.foldl (lastPick k) acc.getLast? := by
  induction l with
  | nil => intro acc _; rfl
  | cons x xs ih =>
    intro acc h
    have h1 : ((x :: xs).foldl (fun s r => insertByKey k r s) acc).getLast? =
        (xs.foldl (fun s r => insertByKey k r s) (insertByKey k x acc)).getLast? := rfl
    rw [h1, ih _ (insertByKey_pairwise k x h), insertByKey_getLast? k x h]
    rfl

theorem sortByKey_getLast? {α : Type} (k : α → Nat) (l : List α) :
    (sortByKey k l).getLast? = l.foldl (lastPick k) none :=
  foldl_insertByKey_getLast? k l [] (by simp)

theorem mem_dedupFirstAux {α : Type} [DecidableEq α] (x : α) :
    ∀ (l seen : List α), x ∈ dedupFirstAux seen l ↔ (x ∈ l ∧ x ∉ seen) := by
  intro l
  induction l with
  | nil => intro seen; simp [dedupFirstAux]
  | cons y ys ih =>
    intro seen
    simp only [dedupFirstAux]
    split
    · rename_i hy
      rw [ih seen]
      simp only [List.mem_cons]
      by_cases hxy : x = y
      · subst hxy; tauto
      · tauto
    · rename_i hy
      simp only [List.mem_cons, ih (y :: seen), List.mem_cons]
      by_cases hxy : x = y
      · subst hxy; tauto
      · tauto

theorem mem_dedupFirst {α : Type} [DecidableEq α] (x : α) (l : List α) :
    x ∈ dedupFirst l ↔ x ∈ l := by
  rw [dedupFirst, mem_dedupFirstAux]
  simp

theorem dedupFirstAux_nodup {α : Type} [DecidableEq α] :
    ∀ (l seen : List α), (dedupFirstAux seen l).Nodup := by
  intro l
  induction l with
  | nil => intro seen; simp [dedupFirstAux]
  | cons y ys ih =>
    intro seen
    simp only [dedupFirstAux]
    split
    · exact ih seen
    · refine List.nodup_cons.mpr ⟨?_, ih (y :: seen)⟩
      intro hmem
      exact ((mem_dedupFirstAux y ys (y :: seen)).mp hmem).2 (List.mem_cons_self y seen)

theorem dedupFirst_nodup {α : Type} [DecidableEq α] (l : List α) :
    (dedupFirst l).Nodup :=
  dedupFirstAux_nodup l []

theorem dedupFirstAux_sublist {α : Type} [DecidableEq α] :
    ∀ (l seen : List α), (dedupFirstAux seen l).Sublist l := by
  intro l
  induction l with
  | nil => intro seen; simp [dedupFirstAux]
  | cons y ys ih =>
    intro seen
    simp only [dedupFirstAux]
    split
    · exact (ih seen).cons y
    · exact (ih (y :: seen)).cons₂ y

theorem dedupFirst_sublist {α : Type} [DecidableEq α] (l : List α) :
    (dedupFirst l).Sublist l :=
  dedupFirstAux_sublist l []

theorem foldl_holtStep_eq (alpha beta : ℚ) (ys : List ℚ) :
    ∀ lt : ℚ × ℚ, ys.foldl (holtStep alpha beta) lt =
      holtSpecLT alpha beta lt.1 lt.2 ys := by
  induction ys with
  | nil => intro lt; rfl
  | cons y ys ih =>
    intro lt
    rw [List.foldl_cons, ih (holtStep alpha beta lt y)]
    rfl

theorem holtLinearPredict_cons_cons (p0 p1 : CategorySeriesPoint)
    (rest : List CategorySeriesPoint) (alpha beta : ℚ) :
    holtLinearPredict (p0 :: p1 :: rest) alpha beta =
      (holtSpecLT alpha beta p0.amount (p1.amount - p0.amount)
        ((p1 :: rest).map (fun p => p.amount))).1 +
      (holtSpecLT alpha beta p0.amount (p1.amount - p0.amount)
        ((p1 :: rest).map (fun p => p.amount))).2 := by
  simp only [holtLinearPredict]
  rw [foldl_holtStep_eq]
  push_cast
  ring

/-! ### C5: degenerate cases and recurrence of the Holt smoother -/

/-- C5: `holtLinearPredict` returns `0` for a 0-point series and the sole
amount for a 1-point series; for a series of at least 2 points it
initializes the level to the first amount and the trend to the second
minus the first and then applies the stated level/trend update over the
remaining points (captured by the spec recurrence `holtSpecLT`); in
particular, for amounts `[100, 120]` with `α = 0.6`, `β = 0.3` the
prediction is exactly `140`, and for the single point `[100]` it is
exactly `100`. -/
theorem holt_degenerate_and_recurrence :
    (∀ alpha beta : ℚ, holtLinearPredict [] alpha beta = 0) ∧
    (∀ (p : CategorySeriesPoint) (alpha beta : ℚ),
      holtLinearPredict [p] alpha beta = p.amount) ∧
    (∀ (p0 p1 : CategorySeriesPoint) (rest : List CategorySeriesPoint)
        (alpha beta : ℚ),
      holtLinearPredict (p0 :: p1 :: rest) alpha beta =
        (holtSpecLT alpha beta p0.amount (p1.amount - p0.amount)
          ((p1 :: rest).map (fun p => p.amount))).1 +
        (holtSpecLT alpha beta p0.amount (p1.amount - p0.amount)
          ((p1 :: rest).map (fun p => p.amount))).2) ∧
    holtLinearPredict
      [{ monthKey := 202401, index := 0, amount := 100 },
       { monthKey := 202402, index := 1, amount := 120 }] (3/5) (3/10) = 140 ∧
    holtLinearPredict [{ monthKey := 202401, index := 0, amount := 100 }]
      (3/5) (3/10) = 100 := by
  refine ⟨fun _ _ => rfl, fun _ _ _ => rfl, holtLinearPredict_cons_cons, ?_, rfl⟩
  simp [holtLinearPredict, holtStep]
  norm_num

/-! ### C2: the step multiplier of the Holt forecast -/

/-- The rows of the C2 counterexample: Dining observed in 2024-01 and
2024-02, Transport in 2024-03, so Dining's last observed index (1) lies 2
positions below the next calendar slot (index 3). -/
def gapRows : List MonthlyCategoryTotal :=
  [{ monthKey := 202401, category := "Dining", totalAmount := 100 },
   { monthKey := 202402, category := "Dining", totalAmount := 120 },
   { monthKey := 202403, category := "Transport", totalAmount := 10 }]

/-- C2 counterexample: on `gapRows` the dataset has 3 distinct months, the
Dining category's last observed index is 1, and the spec recurrence gives
level `120`, trend `20`; the claim's forecast `level + trend·stepsAhead`
with `stepsAhead = 3 - 1 = 2` would be `160`, but the code forecasts
`140` (a step of exactly 1). -/
theorem holt_gap_counterexample :
    (dedupFirst (gapRows.map (fun r => r.monthKey))).length = 3 ∧
    holtSpecLT (3/5) (3/10) 100 (120 - 100) [120] = (120, 20) ∧
    (120 : ℚ) + 20 * (3 - 1) = 160 ∧
    ((forecastRoute gapRows none).perCategory.find?
      (fun c => c.category == "Dining")) =
      some { category := "Dining", predicted := 140 } ∧
    ¬ ((forecastRoute gapRows none).perCategory.find?
      (fun c => c.category == "Dining")) =
      some { category := "Dining", predicted := 160 } := by
  refine ⟨by decide, by norm_num [holtSpecLT], by norm_num, ?_, ?_⟩ <;>
    norm_num +decide [forecastRoute, forecastPerCategory, predictWithPretrained,
      holtBranch, buildCategorySeries, gapRows, dedupFirst, dedupFirstAux,
      sortByKey, insertByKey, jsToLowerCase, CANONICAL_CATEGORIES,
      holtLinearPredict, holtStep, formatNextMonthKey, List.find?,
      List.filter_cons, List.filter_nil, List.indexOf_cons, List.indexOf_nil,
      Bool.cond_eq_ite]

/-- C2 amended: in the Holt fallback, the step multiplier is always exactly
1 — the source sets `nextT = lastIndex + 1`, so for every series of at
least 2 points the forecast is `level + trend·1`, and the prediction never
depends on the point indices at all: trailing gaps are not extrapolated
across. -/
theorem holt_step_always_one :
    (∀ (p0 p1 : CategorySeriesPoint) (rest : List CategorySeriesPoint)
        (alpha beta : ℚ),
      holtLinearPredict (p0 :: p1 :: rest) alpha beta =
        (holtSpecLT alpha beta p0.amount (p1.amount - p0.amount)
          ((p1 :: rest).map (fun p => p.amount))).1 +
        (holtSpecLT alpha beta p0.amount (p1.amount - p0.amount)
          ((p1 :: rest).map (fun p => p.amount))).2 * 1) ∧
    (∀ (s t : List CategorySeriesPoint) (alpha beta : ℚ),
      s.map (fun p => p.amount) = t.map (fun p => p.amount) →
      holtLinearPredict s alpha beta = holtLinearPredict t alpha beta) := by
  constructor
  · intro p0 p1 rest alpha beta
    rw [holtLinearPredict_cons_cons]
    ring
  · intro s t alpha beta h
    cases s with
    | nil =>
      cases t with
      | nil => rfl
      | cons q qs => simp at h
    | cons p ps =>
      cases t with
      | nil => simp at h
      | cons q qs =>
        simp only [List.map_cons, List.cons.injEq] at h
        obtain ⟨hpq, h2⟩ := h
        cases ps with
        | nil =>
          cases qs with
          | nil => simp [holtLinearPredict, hpq]
          | cons q1 qs1 => simp at h2
        | cons p1 ps1 =>
          cases qs with
          | nil => simp at h2
          | cons q1 qs1 =>
            simp only [List.map_cons, List.cons.injEq] at h2
            obtain ⟨h1, h3⟩ := h2
            rw [holtLinearPredict_cons_cons, holtLinearPredict_cons_cons]
            simp only [List.map_cons, hpq, h1, h3]

/-- Witness for the index-independence half of the C2 amended theorem:
shifting the single-point index from 0 to 7 leaves the prediction at 100. -/
theorem holt_step_always_one_witness :
    holtLinearPredict [{ monthKey := 202401, index := 0, amount := 100 }]
      (3/5) (3/10) =
    holtLinearPredict [{ monthKey := 202401, index := 7, amount := 100 }]
      (3/5) (3/10) :=
  holt_step_always_one.2
    [{ monthKey := 202401, index := 0, amount := 100 }]
    [{ monthKey := 202401, index := 7, amount := 100 }] (3/5) (3/10) (by decide)

/-! ### C1: pretrained predictions are used verbatim, without backfill -/

/-- The Scenario D artifact: a model for Dining only, no default model. -/
def diningOnlyArtifact : PretrainedArtifact :=
  { version := "v1", trainedAt := "2024-03-01T00:00:00Z",
    categories := [("Dining", { intercept := 5, lags := [1] })],
    defaultModel := none }

/-- Scenario D rows: data for Dining and Transport over two months. -/
def scenarioDRows : List MonthlyCategoryTotal :=
  [{ monthKey := 202401, category := "Dining", totalAmount := 100 },
   { monthKey := 202402, category := "Dining", totalAmount := 120 },
   { monthKey := 202401, category := "Transport", totalAmount := 30 },
   { monthKey := 202402, category := "Transport", totalAmount := 40 }]

/-- C1: if the pretrained predictor yields a non-empty prediction list,
`forecastPerCategory` returns exactly that list verbatim as `perCategory`;
a category that has neither a specific nor a default model in the artifact
is absent from the pretrained result (so nothing backfills it in the same
pass); and on Scenario D (artifact holding a model only for Dining, data
for Dining and Transport), the forecast contains Dining only. -/
theorem pretrained_verbatim :
    (∀ (series : List CategorySeries) (artifact : Option PretrainedArtifact)
        (ps : List CatPred),
      predictWithPretrained series artifact = some ps → ps ≠ [] →
      (forecastPerCategory series artifact).perCategory = ps) ∧
    (∀ (series : List CategorySeries) (art : PretrainedArtifact)
        (cat : String) (ps : List CatPred),
      predictWithPretrained series (some art) = some ps →
      lookupModel art cat = none →
      cat ∉ ps.map (fun c => c.category)) ∧
    ((forecastRoute scenarioDRows (some diningOnlyArtifact)).perCategory =
      [{ category := "Dining", predicted := 125 }] ∧
     "Transport" ∉
       ((forecastRoute scenarioDRows (some diningOnlyArtifact)).perCategory.map
         (fun c => c.category))) := by
  refine ⟨?_, ?_, ?_⟩
  · intro series artifact ps hps hne
    simp only [forecastPerCategory, hps]
    cases ps with
    | nil => exact absurd rfl hne
    | cons a as => simp
  · intro series art cat ps hps hlook hmem
    simp only [predictWithPretrained, Option.some.injEq] at hps
    subst hps
    rcases List.mem_map.mp hmem with ⟨pc, hpc, hcat⟩
    rcases List.mem_filterMap.mp hpc with ⟨cs, _, hf⟩
    by_cases hinc : (jsToLowerCase cs.category == "income") = true
    · simp [hinc] at hf
    · simp only [Bool.not_eq_true] at hinc
      simp only [hinc, Bool.false_eq_true, if_false] at hf
      cases hm : lookupModel art cs.category with
      | none => rw [hm] at hf; simp at hf
      | some model =>
        rw [hm] at hf
        have hcs : pc.category = cs.category := by
          by_cases hn : ((sortByKey (fun p => p.index) cs.months).length == 0) = true
          · simp [hn] at hf; rw [← hf]
          · simp only [Bool.not_eq_true] at hn
            simp [hn] at hf; rw [← hf]
        rw [hcat] at hcs
        rw [hcs] at hlook
        rw [hm] at hlook
        exact Option.noConfusion hlook
  · constructor <;>
      norm_num +decide [forecastRoute, forecastPerCategory,
        predictWithPretrained, lookupModel, lagFeature, holtBranch,
        buildCategorySeries, scenarioDRows, diningOnlyArtifact, dedupFirst,
        dedupFirstAux, sortByKey, insertByKey, jsToLowerCase,
        CANONICAL_CATEGORIES, formatNextMonthKey, List.filter_cons,
        List.filter_nil, List.indexOf_cons, List.indexOf_nil,
        List.lookup, List.enum, List.enumFrom, List.filterMap_cons,
        List.filterMap_nil, Bool.cond_eq_ite]

/-- Witness for C1: on Scenario D, the pretrained predictor yields the
non-empty list `[⟨Dining, 125⟩]` and `forecastPerCategory` returns it
verbatim. -/
theorem pretrained_verbatim_witness :
    (forecastPerCategory (buildCategorySeries scenarioDRows)
      (some diningOnlyArtifact)).perCategory =
      [{ category := "Dining", predicted := 125 }] :=
  pretrained_verbatim.1 (buildCategorySeries scenarioDRows)
    (some diningOnlyArtifact) [{ category := "Dining", predicted := 125 }]
    (by norm_num +decide [predictWithPretrained, lookupModel, lagFeature,
      buildCategorySeries, scenarioDRows, diningOnlyArtifact, dedupFirst,
      dedupFirstAux, sortByKey, insertByKey, jsToLowerCase,
      CANONICAL_CATEGORIES, List.filter_cons, List.filter_nil,
      List.indexOf_cons, List.indexOf_nil, List.lookup, List.enum,
      List.enumFrom, List.filterMap_cons, List.filterMap_nil,
      Bool.cond_eq_ite])
    (by simp)

/-! ### C9: totality and the non-negative aggregate of the forecast -/

/-- C9: for every history with at least 2 distinct months and no artifact,
the forecast is total (the embedding is a function defined on every input)
with `totalPredicted` equal to the sum of `max 0 predicted` over the chosen
per-category list, hence non-negative, while the per-category list itself
is the unclipped Holt fallback list. -/
theorem forecast_total_nonneg (rows : List MonthlyCategoryTotal)
    (h : 2 ≤ (dedupFirst (rows.map (fun r => r.monthKey))).length) :
    (forecastPerCategory (buildCategorySeries rows) none).totalPredicted =
      ((forecastPerCategory (buildCategorySeries rows) none).perCategory.map
        (fun c => max 0 c.predicted)).sum ∧
    0 ≤ (forecastPerCategory (buildCategorySeries rows) none).totalPredicted ∧
    (forecastPerCategory (buildCategorySeries rows) none).perCategory =
      holtBranch (buildCategorySeries rows) := by
  refine ⟨rfl, ?_, rfl⟩
  have hs : (forecastPerCategory (buildCategorySeries rows) none).totalPredicted =
      ((forecastPerCategory (buildCategorySeries rows) none).perCategory.map
        (fun c => max 0 c.predicted)).sum := rfl
  rw [hs]
  apply List.sum_nonneg
  intro x hx
  rcases List.mem_map.mp hx with ⟨pc, _, rfl⟩
  exact le_max_left 0 pc.predicted

/-- Witness for C9 at a concrete two-month history. -/
theorem forecast_total_nonneg_witness :
    0 ≤ (forecastPerCategory (buildCategorySeries
      [{ monthKey := 202401, category := "Dining", totalAmount := 100 },
       { monthKey := 202402, category := "Dining", totalAmount := 120 }])
      none).totalPredicted :=
  (forecast_total_nonneg
    [{ monthKey := 202401, category := "Dining", totalAmount := 100 },
     { monthKey := 202402, category := "Dining", totalAmount := 120 }]
    (by decide)).2.1

/-! ### C10: the naive-persistence path only emits observed categories -/

/-- C10: `fallbackForecast` includes in `perCategory` exactly the
non-Income categories that occur in the input rows — a canonical category
with no data rows is absent (no `predicted = 0` entry) — so with only
Income rows its `perCategory` is empty; by contrast the Holt path over
`buildCategorySeries` output emits every non-Income canonical category. -/
theorem fallback_only_observed (rows : List MonthlyCategoryTotal) :
    (∀ c : String,
      c ∈ (fallbackForecast rows).perCategory.map (fun p => p.category) ↔
      (c ∈ rows.map (fun r => r.category) ∧ jsToLowerCase c ≠ "income")) ∧
    ((∀ r ∈ rows, jsToLowerCase r.category = "income") →
      (fallbackForecast rows).perCategory = []) ∧
    (∀ c ∈ CANONICAL_CATEGORIES, jsToLowerCase c ≠ "income" →
      c ∈ (forecastPerCategory (buildCategorySeries rows) none).perCategory.map
        (fun p => p.category)) := by
  have hcats : (fallbackForecast rows).perCategory.map (fun p => p.category) =
      (dedupFirst (rows.map (fun r => r.category))).filter
        (fun c => jsToLowerCase c != "income") := by
    simp [fallbackForecast, List.map_map, Function.comp_def]
  refine ⟨?_, ?_, ?_⟩
  · intro c
    rw [hcats, List.mem_filter, mem_dedupFirst]
    simp [bne_iff_ne]
  · intro hall
    have hfil : (dedupFirst (rows.map (fun r => r.category))).filter
        (fun c => jsToLowerCase c != "income") = [] := by
      rw [List.filter_eq_nil_iff]
      intro c hc
      rcases List.mem_map.mp ((mem_dedupFirst c _).mp hc) with ⟨r, hr, rfl⟩
      simp [hall r hr]
    have : (fallbackForecast rows).perCategory.map (fun p => p.category) = [] := by
      rw [hcats, hfil]
    exact List.map_eq_nil_iff.mp this
  · intro c hc hni
    have hcmem : c ∈ dedupFirst (CANONICAL_CATEGORIES ++
        dedupFirst ((sortByKey (fun r => r.monthKey) rows).map
          (fun r => r.category))) :=
      (mem_dedupFirst c _).mpr (List.mem_append_left _ hc)
    have hper : (forecastPerCategory (buildCategorySeries rows) none).perCategory =
        holtBranch (buildCategorySeries rows) := rfl
    rw [hper]
    simp only [holtBranch, buildCategorySeries, List.map_map]
    rw [List.mem_map]
    refine ⟨⟨c, sortByKey (fun p => p.index)
      (((sortByKey (fun r => r.monthKey) rows).filter
        (fun r => r.category == c)).map (fun r =>
          ⟨r.monthKey,
           (dedupFirst ((sortByKey (fun r => r.monthKey) rows).map
             (fun r => r.monthKey))).indexOf r.monthKey,
           r.totalAmount⟩))⟩, ?_, rfl⟩
    rw [List.mem_filter]
    constructor
    · exact List.mem_map.mpr ⟨c, hcmem, rfl⟩
    · simpa [bne_iff_ne] using hni

/-- Witness for C10: with only Income rows, the naive-persistence forecast
has an empty per-category list. -/
theorem fallback_only_observed_witness :
    (fallbackForecast
      [{ monthKey := 202401, category := "Income", totalAmount := 500 },
       { monthKey := 202402, category := "Income", totalAmount := 600 }]).perCategory
      = [] :=
  (fallback_only_observed
    [{ monthKey := 202401, category := "Income", totalAmount := 500 },
     { monthKey := 202402, category := "Income", totalAmount := 600 }]).2.1
    (by decide)

/-! ### C7: Income is excluded from forecast output and history totals -/

theorem predictWithPretrained_mem {series : List CategorySeries}
    {art : PretrainedArtifact} {ps : List CatPred}
    (hps : predictWithPretrained series (some art) = some ps)
    {pc : CatPred} (hpc : pc ∈ ps) :
    ∃ cs ∈ series, pc.category = cs.category ∧
      jsToLowerCase cs.category ≠ "income" := by
  simp only [predictWithPretrained, Option.some.injEq] at hps
  subst hps
  rcases List.mem_filterMap.mp hpc with ⟨cs, hcs, hf⟩
  refine ⟨cs, hcs, ?_⟩
  by_cases hinc : (jsToLowerCase cs.category == "income") = true
  · simp [hinc] at hf
  · simp only [Bool.not_eq_true] at hinc
    simp only [hinc, Bool.false_eq_true, if_false] at hf
    cases hm : lookupModel art cs.category with
    | none => rw [hm] at hf; simp at hf
    | some model =>
      rw [hm] at hf
      have hcat : pc.category = cs.category := by
        by_cases hn : ((sortByKey (fun p => p.index) cs.months).length == 0) = true
        · simp [hn] at hf; rw [← hf]
        · simp only [Bool.not_eq_true] at hn
          simp [hn] at hf; rw [← hf]
      exact ⟨hcat, by simpa using hinc⟩

theorem holtBranch_mem {series : List CategorySeries} {pc : CatPred}
    (h : pc ∈ holtBranch series) :
    ∃ s ∈ series, pc.category = s.category ∧
      jsToLowerCase s.category ≠ "income" := by
  rcases List.mem_map.mp h with ⟨s, hs, rfl⟩
  rcases List.mem_filter.mp hs with ⟨hs2, hcond⟩
  exact ⟨s, hs2, rfl, by simpa [bne_iff_ne] using hcond⟩

/-- C7: a category whose lowercased name is "income" never appears in the
forecast's per-category output (on either route, with or without an
artifact), `totalPredicted` is the sum of the clamped predictions over that
Income-free list (so Income never contributes to it), every history
point's `totalActual` sums only the non-Income actuals, and Income may
still appear as an informational per-category actual in history output. -/
theorem income_excluded (rows : List MonthlyCategoryTotal)
    (artifact : Option PretrainedArtifact) :
    (∀ pc ∈ (forecastRoute rows artifact).perCategory,
      jsToLowerCase pc.category ≠ "income") ∧
    ((forecastRoute rows artifact).totalPredicted =
      ((forecastRoute rows artifact).perCategory.map
        (fun c => max 0 c.predicted)).sum) ∧
    (∀ hp ∈ buildHistory rows, hp.totalActual =
      ((hp.perCategory.filter (fun v => jsToLowerCase v.1 != "income")).map
        (fun v => max 0 v.2)).sum) ∧
    buildHistory [{ monthKey := 202401, category := "Income", totalAmount := 500 }] =
      [{ monthKey := 202401, perCategory := [("Income", 500)], totalActual := 0 }] := by
  refine ⟨?_, ?_, ?_, ?_⟩
  · intro pc hpc
    by_cases hif : 2 ≤ (dedupFirst (rows.map (fun t => t.monthKey))).length
    · rw [forecastRoute] at hpc
      rw [if_pos hif] at hpc
      cases artifact with
      | none =>
        have : (forecastPerCategory (buildCategorySeries rows) none).perCategory =
            holtBranch (buildCategorySeries rows) := rfl
        rw [this] at hpc
        rcases holtBranch_mem hpc with ⟨s, _, heq, hne⟩
        rw [heq]; exact hne
      | some art =>
        cases hart : predictWithPretrained (buildCategorySeries rows) (some art) with
        | none => simp [predictWithPretrained] at hart
        | some ps =>
          have hper : (forecastPerCategory (buildCategorySeries rows)
              (some art)).perCategory =
              if ps.isEmpty then holtBranch (buildCategorySeries rows) else ps := by
            simp only [forecastPerCategory, hart]
          rw [hper] at hpc
          by_cases hemp : ps.isEmpty
          · rw [if_pos hemp] at hpc
            rcases holtBranch_mem hpc with ⟨s, _, heq, hne⟩
            rw [heq]; exact hne
          · rw [if_neg hemp] at hpc
            rcases predictWithPretrained_mem hart hpc with ⟨s, _, heq, hne⟩
            rw [heq]; exact hne
    · rw [forecastRoute] at hpc
      rw [if_neg hif] at hpc
      rcases List.mem_map.mp hpc with ⟨c, hcmem, rfl⟩
      rcases List.mem_filter.mp hcmem with ⟨_, hcond⟩
      simpa [bne_iff_ne] using hcond
  · by_cases hif : 2 ≤ (dedupFirst (rows.map (fun t => t.monthKey))).length
    · rw [forecastRoute, if_pos hif]; rfl
    · rw [forecastRoute, if_neg hif]; rfl
  · intro hp hmem
    simp only [buildHistory] at hmem
    rcases List.mem_map.mp hmem with ⟨e, _, rfl⟩
    simp [List.filter_map, List.map_map, Function.comp_def]
  · norm_num +decide [buildHistory, dedupFirst, dedupFirstAux, sortByKey,
      insertByKey, jsToLowerCase, List.filter_cons, List.filter_nil,
      Bool.cond_eq_ite]

/-- Witness for C7 on a dataset mixing Income and Dining rows: the entry
actually emitted for Dining is not named income. -/
theorem income_excluded_witness :
    jsToLowerCase ({ category := "Dining", predicted := 50 } : CatPred).category
      ≠ "income" :=
  (income_excluded
    [{ monthKey := 202401, category := "Income", totalAmount := 3000 },
     { monthKey := 202401, category := "Dining", totalAmount := 50 }] none).1
    { category := "Dining", predicted := 50 }
    (by norm_num +decide [forecastRoute, fallbackForecast, dedupFirst,
      dedupFirstAux, sortByKey, insertByKey, jsToLowerCase, List.filter_cons,
      List.filter_nil, Bool.cond_eq_ite])

/-! ### C3: the null condition of the trailing average income -/

/-- An income series whose single observed month has amount 0. -/
def zeroIncomeSeries : List CategorySeries :=
  [⟨"Income", [⟨202401, 0, 0⟩]⟩]

/-- A forecast with a single Dining prediction of 10. -/
def diningForecast10 : ForecastResult :=
  ⟨202402, [⟨"Dining", 10⟩], 10⟩

/-- C3 counterexample: with one observed income month of amount 0, income
months exist and their mean (0) is finite, yet `computeSafeToSpend`
returns `avgMonthlyIncome = null` — the JS guard `!avgMonthlyIncome` is
also falsy for the number 0, so the claim's "null exactly when no income
months exist" is violated. -/
theorem safe_null_zero_counterexample :
    trailingIncomeMonths zeroIncomeSeries = [⟨202401, 0, 0⟩] ∧
    meanAbsAmount (trailingIncomeMonths zeroIncomeSeries) = 0 ∧
    (computeSafeToSpend diningForecast10 zeroIncomeSeries).avgMonthlyIncome
      = none ∧
    ¬ ((computeSafeToSpend diningForecast10 zeroIncomeSeries).avgMonthlyIncome
      = some 0) := by
  have h1 : trailingIncomeMonths zeroIncomeSeries = [⟨202401, 0, 0⟩] := rfl
  have h2 : meanAbsAmount ([⟨202401, 0, 0⟩] : List CategorySeriesPoint) = 0 := by
    norm_num [meanAbsAmount]
  have h3 : (computeSafeToSpend diningForecast10 zeroIncomeSeries).avgMonthlyIncome
      = none := by
    simp only [computeSafeToSpend, h1, h2]
    simp
  exact ⟨h1, by rw [h1]; exact h2, h3, by rw [h3]; simp⟩

/-- C3 amended: `avgMonthlyIncome` is `null` exactly when no trailing
income months exist or their mean of absolute amounts is zero (the JS
falsy guard; non-finite means cannot arise over exact arithmetic);
otherwise it equals the mean of the absolute amounts over the trailing (up
to 3) observed income months; and in the null case `safeTotalBudget` and
every category's `safeBudget` are null while every category's predicted
value is passed through unchanged. -/
theorem safe_income_mean (forecast : ForecastResult)
    (series : List CategorySeries) :
    ((computeSafeToSpend forecast series).avgMonthlyIncome = none ↔
      (trailingIncomeMonths series = [] ∨
       meanAbsAmount (trailingIncomeMonths series) = 0)) ∧
    (∀ q : ℚ, (computeSafeToSpend forecast series).avgMonthlyIncome = some q →
      q = meanAbsAmount (trailingIncomeMonths series)) ∧
    ((computeSafeToSpend forecast series).avgMonthlyIncome = none →
      (computeSafeToSpend forecast series).safeTotalBudget = none ∧
      (computeSafeToSpend forecast series).perCategory =
        forecast.perCategory.map (fun pc =>
          { category := pc.category, safeBudget := none,
            predicted := pc.predicted })) := by
  by_cases hlen : (trailingIncomeMonths series).length > 0
  · by_cases hz : meanAbsAmount (trailingIncomeMonths series) = 0
    · have hres : computeSafeToSpend forecast series =
          { targetSavingsRate := TARGET_SAVINGS_RATE
            avgMonthlyIncome := none
            safeTotalBudget := none
            perCategory := forecast.perCategory.map (fun pc =>
              { category := pc.category, predicted := pc.predicted,
                safeBudget := none }) } := by
        simp only [computeSafeToSpend, if_pos hlen]
        simp [hz]
      rw [hres]
      refine ⟨?_, ?_, ?_⟩
      · simp [hz]
      · intro q hq; exact absurd hq (by simp)
      · intro _; exact ⟨rfl, rfl⟩
    · have hres : (computeSafeToSpend forecast series).avgMonthlyIncome =
          some (meanAbsAmount (trailingIncomeMonths series)) := by
        simp only [computeSafeToSpend, if_pos hlen]
        simp [hz]
      refine ⟨?_, ?_, ?_⟩
      · rw [hres]
        simp only [Option.some_ne_none, false_iff]
        push_neg
        exact ⟨List.ne_nil_of_length_pos hlen, hz⟩
      · intro q hq
        rw [hres] at hq
        exact (Option.some.injEq _ _ ▸ hq).symm
      · intro hnone
        rw [hres] at hnone
        exact absurd hnone (by simp)
  · have hres : computeSafeToSpend forecast series =
        { targetSavingsRate := TARGET_SAVINGS_RATE
          avgMonthlyIncome := none
          safeTotalBudget := none
          perCategory := forecast.perCategory.map (fun pc =>
            { category := pc.category, predicted := pc.predicted,
              safeBudget := none }) } := by
      simp only [computeSafeToSpend, if_neg hlen]
    rw [hres]
    have hnil : trailingIncomeMonths series = [] :=
      List.eq_nil_of_length_eq_zero (Nat.eq_zero_of_not_pos hlen)
    refine ⟨by simp [hnil], ?_, ?_⟩
    · intro q hq; exact absurd hq (by simp)
    · intro _; exact ⟨rfl, rfl⟩

/-- Witness for C3: with no income series at all, the null case passes the
Dining prediction through with a null budget. -/
theorem safe_income_mean_witness :
    (computeSafeToSpend
      { nextMonthKey := 202402,
        perCategory := [{ category := "Dining", predicted := 10 }],
        totalPredicted := 10 } []).safeTotalBudget = none ∧
    (computeSafeToSpend
      { nextMonthKey := 202402,
        perCategory := [{ category := "Dining", predicted := 10 }],
        totalPredicted := 10 } []).perCategory =
      ([{ category := "Dining", predicted := 10 }] : List CatPred).map (fun pc =>
        { category := pc.category, safeBudget := none,
          predicted := pc.predicted }) :=
  (safe_income_mean
    { nextMonthKey := 202402,
      perCategory := [{ category := "Dining", predicted := 10 }],
      totalPredicted := 10 } []).2.2 (by rfl)

/-! ### C4: the per-category safe budgets sum to the total budget -/

theorem sum_map_const_rat {α : Type} (l : List α) (c : ℚ) :
    (l.map (fun _ => c)).sum = (l.length : ℚ) * c := by
  induction l with
  | nil => simp
  | cons x xs ih =>
    simp only [List.map_cons, List.sum_cons, ih, List.length_cons]
    push_cast
    ring

/-- An income series whose single observed month has amount 1000. -/
def thousandIncomeSeries : List CategorySeries :=
  [⟨"Income", [⟨202401, 0, 1000⟩]⟩]

/-- A forecast whose per-category list is empty. -/
def emptyForecast : ForecastResult := ⟨202402, [], 0⟩

/-- C4 counterexample: with income present but an empty per-category
forecast list, `avgMonthlyIncome = 1000` is non-null and
`safeTotalBudget = 800`, yet the sum of the per-category safe budgets is
the empty sum `0 ≠ 800` — the claim fails for an empty category list. -/
theorem safe_budget_sum_counterexample :
    (computeSafeToSpend emptyForecast thousandIncomeSeries).avgMonthlyIncome
      = some 1000 ∧
    (computeSafeToSpend emptyForecast thousandIncomeSeries).safeTotalBudget
      = some 800 ∧
    ((computeSafeToSpend emptyForecast thousandIncomeSeries).perCategory.map
      (fun c => c.safeBudget.getD 0)).sum = 0 ∧
    ¬ (((computeSafeToSpend emptyForecast thousandIncomeSeries).perCategory.map
      (fun c => c.safeBudget.getD 0)).sum = 800) := by
  have h1 : trailingIncomeMonths thousandIncomeSeries = [⟨202401, 0, 1000⟩] := rfl
  have h2 : meanAbsAmount ([⟨202401, 0, 1000⟩] : List CategorySeriesPoint) = 1000 := by
    norm_num [meanAbsAmount]
  have hres : computeSafeToSpend emptyForecast thousandIncomeSeries =
      ⟨TARGET_SAVINGS_RATE, some 1000, some (1000 * (1 - TARGET_SAVINGS_RATE)), []⟩ := by
    simp only [computeSafeToSpend, h1, h2]
    norm_num [emptyForecast]
  rw [hres]
  norm_num [TARGET_SAVINGS_RATE]

/-- C4 amended: whenever `avgMonthlyIncome` is non-null and the forecast's
per-category list is non-empty, the per-category safe budgets sum exactly
(over `ℚ`) to `safeTotalBudget = avgMonthlyIncome·(1−0.2)`, including the
zero-prediction case where every category receives the equal share; with
an empty per-category list the sum is 0 instead. -/
theorem computeSafeToSpend_some (forecast : ForecastResult)
    (series : List CategorySeries)
    (hlen : (trailingIncomeMonths series).length > 0)
    (hz : meanAbsAmount (trailingIncomeMonths series) ≠ 0) :
    computeSafeToSpend forecast series =
      ⟨TARGET_SAVINGS_RATE, some (meanAbsAmount (trailingIncomeMonths series)),
       some (meanAbsAmount (trailingIncomeMonths series) *
         (1 - TARGET_SAVINGS_RATE)),
       forecast.perCategory.map (fun pc =>
         ⟨pc.category,
          some (meanAbsAmount (trailingIncomeMonths series) *
            (1 - TARGET_SAVINGS_RATE) * allocShare forecast pc),
          pc.predicted⟩)⟩ := by
  have hbeq : (meanAbsAmount (trailingIncomeMonths series) == 0) = false := by
    simpa using hz
  simp only [computeSafeToSpend, if_pos hlen, hbeq, Bool.false_eq_true, if_false]

theorem sum_allocShare (forecast : ForecastResult)
    (hne : forecast.perCategory ≠ []) :
    (forecast.perCategory.map (fun pc => allocShare forecast pc)).sum = 1 := by
  by_cases hSpos :
      (forecast.perCategory.map (fun q => max 0 q.predicted)).sum > 0
  · have hfun : (fun pc => allocShare forecast pc) = fun pc : CatPred =>
        ((forecast.perCategory.map (fun q => max 0 q.predicted)).sum)⁻¹ *
          max 0 pc.predicted := by
      funext pc
      simp only [allocShare, if_pos hSpos]
      ring
    rw [hfun, List.sum_map_mul_left]
    exact inv_mul_cancel₀ (ne_of_gt hSpos)
  · have hlen0 : forecast.perCategory.length ≠ 0 := by
      intro h0
      exact hne (List.eq_nil_of_length_eq_zero h0)
    have hbeq : (forecast.perCategory.length == 0) = false := by
      simpa using hlen0
    have hfun : (fun pc => allocShare forecast pc) = fun _ : CatPred =>
        1 / (forecast.perCategory.length : ℚ) := by
      funext pc
      simp only [allocShare, if_neg hSpos, hbeq, Bool.false_eq_true, if_false]
    rw [hfun, sum_map_const_rat]
    have hq : ((forecast.perCategory.length : ℚ)) ≠ 0 := by
      exact_mod_cast hlen0
    field_simp

theorem safe_budget_sum (forecast : ForecastResult)
    (series : List CategorySeries) (avg : ℚ)
    (havg : (computeSafeToSpend forecast series).avgMonthlyIncome = some avg)
    (hne : forecast.perCategory ≠ []) :
    (computeSafeToSpend forecast series).safeTotalBudget =
      some (avg * (1 - TARGET_SAVINGS_RATE)) ∧
    ((computeSafeToSpend forecast series).perCategory.map
      (fun c => c.safeBudget.getD 0)).sum = avg * (1 - TARGET_SAVINGS_RATE) := by
  by_cases hlen : (trailingIncomeMonths series).length > 0
  · by_cases hz : meanAbsAmount (trailingIncomeMonths series) = 0
    · exfalso
      have hnone : (computeSafeToSpend forecast series).avgMonthlyIncome = none := by
        simp only [computeSafeToSpend, if_pos hlen]
        simp [hz]
      rw [hnone] at havg
      exact Option.noConfusion havg
    · have hres := computeSafeToSpend_some forecast series hlen hz
      have havg2 : avg = meanAbsAmount (trailingIncomeMonths series) := by
        rw [hres] at havg
        exact (Option.some.injEq _ _ ▸ havg).symm
      rw [havg2, hres]
      refine ⟨rfl, ?_⟩
      simp only [List.map_map]
      have hcomp : ((fun c : SafeCat => c.safeBudget.getD 0) ∘ (fun pc : CatPred =>
          (⟨pc.category,
            some (meanAbsAmount (trailingIncomeMonths series) *
              (1 - TARGET_SAVINGS_RATE) * allocShare forecast pc),
            pc.predicted⟩ : SafeCat))) = fun pc : CatPred =>
          meanAbsAmount (trailingIncomeMonths series) *
            (1 - TARGET_SAVINGS_RATE) * allocShare forecast pc := by
        funext pc
        rfl
      rw [hcomp, List.sum_map_mul_left, sum_allocShare forecast hne, mul_one]
  · exfalso
    have hnone : (computeSafeToSpend forecast series).avgMonthlyIncome = none := by
      simp only [computeSafeToSpend, if_neg hlen]
    rw [hnone] at havg
    exact Option.noConfusion havg

/-- Witness for C4: one Dining category and a single income month of 1000
give safe budgets summing to `1000·0.8 = 800`. -/
theorem safe_budget_sum_witness :
    ((computeSafeToSpend diningForecast10 thousandIncomeSeries).perCategory.map
      (fun c => c.safeBudget.getD 0)).sum =
      1000 * (1 - TARGET_SAVINGS_RATE) :=
  (safe_budget_sum diningForecast10 thousandIncomeSeries 1000
    (by
      have h1 : trailingIncomeMonths thousandIncomeSeries = [⟨202401, 0, 1000⟩] := rfl
      have h2 : meanAbsAmount ([⟨202401, 0, 1000⟩] : List CategorySeriesPoint)
          = 1000 := by norm_num [meanAbsAmount]
      simp only [computeSafeToSpend, h1, h2]
      norm_num)
    (by simp [diningForecast10])).2

/-! ### C6: naive persistence below 2 distinct months -/

theorem foldl_lastPick_id : ∀ (l : List Nat) (a : Nat),
    (l.foldl (lastPick id) (some a)).getD 0 = l.foldl max a := by
  intro l
  induction l with
  | nil => intro a; rfl
  | cons x xs ih =>
    intro a
    have hstep : lastPick id (some a) x = some (max a x) := by
      simp only [lastPick, id]
      split
      · rename_i hlt
        rw [max_eq_left (le_of_lt hlt)]
      · rename_i hge
        rw [max_eq_right (le_of_not_lt hge)]
    rw [List.foldl_cons, hstep, ih, List.foldl_cons]

theorem sortByKey_id_getLastD (l : List Nat) :
    (sortByKey id l).getLastD 0 = l.foldl max 0 := by
  rw [List.getLastD_eq_getLast?, sortByKey_getLast?]
  cases l with
  | nil => rfl
  | cons x xs =>
    rw [List.foldl_cons, List.foldl_cons]
    have h0 : lastPick id none x = some x := rfl
    rw [h0, foldl_lastPick_id]
    congr 1
    exact (max_eq_right (Nat.zero_le x)).symm

/-- The maximal observed month key of the dataset (spec: "the last observed
month"), written as a fold over the raw rows. -/
def latestMonthKey (rows : List MonthlyCategoryTotal) : MonthKey :=
  (rows.map (fun r => r.monthKey)).foldl max 0

/-- C6: whenever the dataset has fewer than 2 distinct months, the route
returns the naive-persistence forecast whatever the artifact is (both the
pretrained and the Holt paths are bypassed); in that forecast each
category's prediction is its most recently observed amount, and
`nextMonthKey` is the last observed month advanced by one calendar month;
in particular a single row (2024-01, Dining, 50) yields predicted 50 and
next month 2024-02 even with an artifact present. -/
theorem naive_persistence (rows : List MonthlyCategoryTotal)
    (artifact : Option PretrainedArtifact) :
    ((dedupFirst (rows.map (fun t => t.monthKey))).length < 2 →
      forecastRoute rows artifact = fallbackForecast rows) ∧
    (∀ pc ∈ (fallbackForecast rows).perCategory,
      pc.predicted = mostRecentAmount rows pc.category) ∧
    ((fallbackForecast rows).nextMonthKey =
      formatNextMonthKey (latestMonthKey rows)) ∧
    forecastRoute [⟨202401, "Dining", 50⟩] (some diningOnlyArtifact) =
      ⟨202402, [⟨"Dining", 50⟩], 50⟩ := by
  refine ⟨?_, ?_, ?_, ?_⟩
  · intro hlt
    rw [forecastRoute, if_neg (by omega)]
  · intro pc hpc
    rcases List.mem_map.mp hpc with ⟨c, _, rfl⟩
    simp only [mostRecentAmount]
    rw [← sortByKey_getLast?]
  · simp only [fallbackForecast]
    rw [sortByKey_id_getLastD]
    rfl
  · simp [forecastRoute, fallbackForecast, dedupFirst, dedupFirstAux,
      sortByKey, insertByKey, jsToLowerCase, formatNextMonthKey]

/-- Witness for C6: with a single-month dataset and an artifact present,
the route still returns the naive-persistence forecast. -/
theorem naive_persistence_witness :
    forecastRoute [⟨202401, "Dining", 50⟩] (some diningOnlyArtifact) =
      fallbackForecast [⟨202401, "Dining", 50⟩] :=
  (naive_persistence [⟨202401, "Dining", 50⟩] (some diningOnlyArtifact)).1
    (by decide)

/-! ### C8: shape of the per-category series -/

theorem dedupFirst_pairwise {α : Type} [DecidableEq α] {R : α → α → Prop}
    {l : List α} (h : l.Pairwise R) : (dedupFirst l).Pairwise R :=
  h.sublist (dedupFirst_sublist l)

theorem strictSorted_of_pairwise_nodup {u : List Nat}
    (h1 : u.Pairwise (fun a b => a ≤ b)) (h2 : u.Nodup) :
    u.Pairwise (fun a b => a < b) :=
  (h1.and h2).imp (fun hab => lt_of_le_of_ne hab.1 hab.2)

theorem indexOf_of_sorted : ∀ {u : List Nat},
    u.Pairwise (fun a b => a < b) → ∀ {m : Nat}, m ∈ u →
    u.indexOf m = (u.filter (fun x => x < m)).length := by
  intro u
  induction u with
  | nil => intro _ m hm; cases hm
  | cons a rest ih =>
    intro hu m hm
    rcases List.pairwise_cons.mp hu with ⟨ha, hrest⟩
    by_cases heq : a = m
    · subst heq
      rw [List.indexOf_cons_self]
      have hfil : (a :: rest).filter (fun x => x < a) = [] := by
        rw [List.filter_eq_nil_iff]
        intro x hx
        rcases List.mem_cons.mp hx with rfl | hx2
        · simp
        · have hax := ha x hx2
          simp
          omega
      rw [hfil]
      rfl
    · have hm2 : m ∈ rest := by
        rcases List.mem_cons.mp hm with rfl | h2
        · exact absurd rfl heq
        · exact h2
      have ham : a < m := ha m hm2
      rw [List.indexOf_cons_ne _ heq,
        List.filter_cons_of_pos (by simpa using ham), List.length_cons,
        ih hrest hm2]

/-- The distinct month keys of the chronologically sorted rows, as built by
`buildCategorySeries`. -/
def uniqueMonthsOf (rows : List MonthlyCategoryTotal) : List MonthKey :=
  dedupFirst ((sortByKey (fun r => r.monthKey) rows).map (fun r => r.monthKey))

theorem uniqueMonthsOf_strict (rows : List MonthlyCategoryTotal) :
    (uniqueMonthsOf rows).Pairwise (fun a b => a < b) := by
  apply strictSorted_of_pairwise_nodup _ (dedupFirst_nodup _)
  apply dedupFirst_pairwise
  rw [List.pairwise_map]
  exact sortByKey_pairwise (fun r => r.monthKey) rows

theorem uniqueMonthsOf_filter_length (rows : List MonthlyCategoryTotal)
    (m : Nat) :
    ((uniqueMonthsOf rows).filter (fun x => x < m)).length = monthRank rows m := by
  have hperm : List.Perm (uniqueMonthsOf rows)
      ((rows.map (fun r => r.monthKey)).dedup) := by
    apply (List.perm_ext_iff_of_nodup (dedupFirst_nodup _)
      (List.nodup_dedup _)).mpr
    intro a
    simp only [uniqueMonthsOf, mem_dedupFirst, List.mem_dedup]
    constructor
    · intro ha
      rcases List.mem_map.mp ha with ⟨r, hr, rfl⟩
      exact List.mem_map.mpr
        ⟨r, (sortByKey_perm (fun r => r.monthKey) rows).mem_iff.mp hr, rfl⟩
    · intro ha
      rcases List.mem_map.mp ha with ⟨r, hr, rfl⟩
      exact List.mem_map.mpr
        ⟨r, (sortByKey_perm (fun r => r.monthKey) rows).mem_iff.mpr hr, rfl⟩
  rw [monthRank]
  exact (hperm.filter _).length_eq

/-- C8: `buildCategorySeries` returns exactly one series per category in
the union of the canonical set and the observed categories (no
duplicates); every point of a series comes from a row of that category (no
interpolation) and carries as index the global zero-based rank of its
month among all distinct months of the dataset; each series is sorted
ascending by index; and a category absent from the data gets an empty
point list. -/
theorem series_shape (rows : List MonthlyCategoryTotal) :
    (((buildCategorySeries rows).map (fun s => s.category)).Nodup) ∧
    (∀ c : String,
      c ∈ (buildCategorySeries rows).map (fun s => s.category) ↔
      (c ∈ CANONICAL_CATEGORIES ∨ c ∈ rows.map (fun r => r.category))) ∧
    (∀ s ∈ buildCategorySeries rows, ∀ p ∈ s.months,
      p.index = monthRank rows p.monthKey ∧
      ∃ r ∈ rows, r.category = s.category ∧ r.monthKey = p.monthKey ∧
        r.totalAmount = p.amount) ∧
    (∀ s ∈ buildCategorySeries rows,
      s.months.Pairwise (fun a b => a.index ≤ b.index)) ∧
    (∀ s ∈ buildCategorySeries rows,
      s.category ∉ rows.map (fun r => r.category) → s.months = []) := by
  have hcat : (buildCategorySeries rows).map (fun s => s.category) =
      dedupFirst (CANONICAL_CATEGORIES ++
        dedupFirst ((sortByKey (fun r => r.monthKey) rows).map
          (fun r => r.category))) := by
    rw [buildCategorySeries, List.map_map]
    exact List.map_id _
  refine ⟨?_, ?_, ?_, ?_, ?_⟩
  · rw [hcat]
    exact dedupFirst_nodup _
  · intro c
    rw [hcat, mem_dedupFirst, List.mem_append, mem_dedupFirst]
    have hmm : c ∈ (sortByKey (fun r => r.monthKey) rows).map
        (fun r => r.category) ↔ c ∈ rows.map (fun r => r.category) :=
      ((sortByKey_perm (fun r => r.monthKey) rows).map
        (fun r => r.category)).mem_iff
    rw [hmm]
  · intro s hs p hp
    rw [buildCategorySeries] at hs
    rcases List.mem_map.mp hs with ⟨c, _, rfl⟩
    have hp2 := (sortByKey_perm (fun q : CategorySeriesPoint => q.index)
      _).mem_iff.mp hp
    rcases List.mem_map.mp hp2 with ⟨r, hrfil, rfl⟩
    rcases List.mem_filter.mp hrfil with ⟨hrS, hrc⟩
    have hrcat : r.category = c := by simpa using hrc
    have hrmem : r ∈ rows :=
      (sortByKey_perm (fun q : MonthlyCategoryTotal => q.monthKey)
        rows).mem_iff.mp hrS
    refine ⟨?_, r, hrmem, hrcat, rfl, rfl⟩
    have hmemU : r.monthKey ∈ uniqueMonthsOf rows :=
      (mem_dedupFirst _ _).mpr (List.mem_map.mpr ⟨r, hrS, rfl⟩)
    calc (uniqueMonthsOf rows).indexOf r.monthKey
        = ((uniqueMonthsOf rows).filter (fun x => x < r.monthKey)).length :=
          indexOf_of_sorted (uniqueMonthsOf_strict rows) hmemU
      _ = monthRank rows r.monthKey := uniqueMonthsOf_filter_length rows _
  · intro s hs
    rw [buildCategorySeries] at hs
    rcases List.mem_map.mp hs with ⟨c, _, rfl⟩
    exact sortByKey_pairwise (fun q : CategorySeriesPoint => q.index) _
  · intro s hs hno
    rw [buildCategorySeries] at hs
    rcases List.mem_map.mp hs with ⟨c, _, rfl⟩
    have hfil : (sortByKey (fun r => r.monthKey) rows).filter
        (fun r => r.category == c) = [] := by
      rw [List.filter_eq_nil_iff]
      intro r hr
      simp only [beq_iff_eq]
      intro hrc
      apply hno
      have hrmem : r ∈ rows :=
        (sortByKey_perm (fun q : MonthlyCategoryTotal => q.monthKey)
          rows).mem_iff.mp hr
      exact List.mem_map.mpr ⟨r, hrmem, hrc⟩
    show sortByKey (fun p : CategorySeriesPoint => p.index) _ = []
    rw [hfil]
    rfl

/-- A two-month Dining dataset. -/
def twoMonthRows : List MonthlyCategoryTotal :=
  [⟨202401, "Dining", 100⟩, ⟨202402, "Dining", 120⟩]

/-- The Dining series that `buildCategorySeries` produces on
`twoMonthRows`. -/
def diningSeries : CategorySeries :=
  ⟨"Dining", [⟨202401, 0, 100⟩, ⟨202402, 1, 120⟩]⟩

/-- Witness for C8: the second Dining point carries index 1, the global
rank of 2024-02 among the distinct months, and stems from a data row. -/
theorem series_shape_witness :
    (⟨202402, 1, (120 : ℚ)⟩ : CategorySeriesPoint).index =
      monthRank twoMonthRows 202402 ∧
    ∃ r ∈ twoMonthRows, r.category = diningSeries.category ∧
      r.monthKey = (⟨202402, 1, (120 : ℚ)⟩ : CategorySeriesPoint).monthKey ∧
      r.totalAmount = (⟨202402, 1, (120 : ℚ)⟩ : CategorySeriesPoint).amount :=
  (series_shape twoMonthRows).2.2.1 diningSeries
    (by norm_num +decide [buildCategorySeries, twoMonthRows, diningSeries,
      dedupFirst, dedupFirstAux, sortByKey, insertByKey, CANONICAL_CATEGORIES,
      List.filter_cons, List.filter_nil, List.indexOf_cons, List.indexOf_nil,
      Bool.cond_eq_ite])
    ⟨202402, 1, 120⟩ (by simp [diningSeries])

end FinCopilot
